import Mathlib

/-!
Verification of the Integrators program.

A shallow embedding of the C++ program in `src/FileName.cpp`: a polynomial
function class (`evaluate`, `antiderivative`, `print`), two integrators
(`AnalyticalIntegrator` via the antiderivative, `RiemannIntegrator` via a
trapezoid accumulation) and a table printer.

Modelling conventions:
* C++ `double` is modelled by `ℚ` (exact arithmetic; the claims under
  study are structural, not about rounding).
* The C++ cast `(int)q` (truncation toward zero) is `truncInt`.
* `std::vector<double>` is `List ℚ`; the loop `for (i = 0; i < n; i++)`
  with an accumulator is `List.foldl` over `List.range n`.
* The textual rendering of a `double` by `operator<<` is an abstract
  parameter `render : ℚ → String`; stream output is modelled by returning
  the emitted `String`.  A member function `print(ostream& stream)` is
  modelled as a function of two buffers `(stream, stdout)` returning the
  updated pair, since the C++ bodies write to `cout`, not to `stream`.
-/

/-- The C++ cast `(int)` applied to a real quantity: truncation toward
zero (floor for nonnegative arguments, ceiling for negative ones). -/
def truncInt (q : ℚ) : ℤ :=
  if 0 ≤ q then ⌊q⌋ else ⌈q⌉

/-- Model of `class PolynomicalFunction` (sic): a coefficient vector, index = power. -/
structure PolynomicalFunction where
  coefficients : List ℚ
deriving DecidableEq

/-- Model of `PolynomicalFunction::evaluate`: starting from `result = 0.0`, the loop
`for (i = 0; i < coefficients.size(); i++) result += coefficients[i] * pow(x, i)`. -/
def PolynomicalFunction.evaluate (p : PolynomicalFunction) (x : ℚ) : ℚ :=
  (List.range p.coefficients.length).foldl
    (fun result i => result + p.coefficients.getD i 0 * x ^ i) 0

/-- Model of `PolynomicalFunction::antiderivative`: a zero-initialised vector
`newCoeffs` of size `n + 1`, then the loop
`for (i = 0; i < n; i++) newCoeffs[i + 1] = coefficients[i] / (i + 1)`. -/
def PolynomicalFunction.antiderivative (p : PolynomicalFunction) : PolynomicalFunction :=
  ⟨(List.range p.coefficients.length).foldl
    (fun newCoeffs i => newCoeffs.set (i + 1) (p.coefficients.getD i 0 / ((i : ℚ) + 1)))
    (List.replicate (p.coefficients.length + 1) 0)⟩

/-- Model of `class RiemannIntegrator`: owns the step size `h`. -/
structure RiemannIntegrator where
  h : ℚ

/-- The C++ constructor `RiemannIntegrator(double h=0.001) : h(h) {}`:
it stores `h` unconditionally (no validation). -/
def mkRiemannIntegrator (h : ℚ := 1/1000) : RiemannIntegrator :=
  ⟨h⟩

/-- Model of `RiemannIntegrator::integrate`: `int n = (int)((b - a) / h);` then the
loop over `i = 0..n-1` accumulating `(x2 - x1) * ((y2 + y1) / 2)` with
`x1 = a + i*h`, `x2 = x1 + h`, `y1 = f(x1)`, `y2 = f(x2)`.  The only
capability of `Function` the loop uses is `evaluate`, so `f` is modelled
as `ℚ → ℚ`. -/
def RiemannIntegrator.integrate (R : RiemannIntegrator) (f : ℚ → ℚ) (a b : ℚ) : ℚ :=
  let n : ℤ := truncInt ((b - a) / R.h)
  (List.range n.toNat).foldl
    (fun (sum : ℚ) (i : ℕ) =>
      let x1 := a + (i : ℚ) * R.h
      let x2 := x1 + R.h
      let y1 := f x1
      let y2 := f x2
      sum + (x2 - x1) * ((y2 + y1) / 2)) 0

/-- Model of `AnalyticalIntegrator::integrate`: `auto p = f.antiderivative();
return p->evaluate(b) - p->evaluate(a);`.  The only `Function` variant in
the program implementing `antiderivative` is `PolynomicalFunction`. -/
def AnalyticalIntegrator.integrate (f : PolynomicalFunction) (a b : ℚ) : ℚ :=
  let p := f.antiderivative
  p.evaluate b - p.evaluate a

/-- The text `PolynomicalFunction::print` emits: the loop
`for (i = 0; ...) { if (i == 0) cout << c[i]; else cout << " + " << c[i]
<< "x^" << i; }` followed by `cout << endl`.  The textual rendering of a
`double` by `operator<<` is the abstract parameter `render`. -/
def PolynomicalFunction.printText (p : PolynomicalFunction) (render : ℚ → String) : String :=
  ((List.range p.coefficients.length).foldl
    (fun out i =>
      if i = 0 then out ++ render (p.coefficients.getD i 0)
      else out ++ " + " ++ render (p.coefficients.getD i 0) ++ "x^" ++ Nat.repr i)
    "") ++ "\n"

/-- Model of `PolynomicalFunction::print(ostream& stream)` as a state transformer on
the pair (passed stream buffer, `cout` buffer): every `<<` in the body
targets `cout`, so the passed stream is returned untouched. -/
def PolynomicalFunction.printStream (p : PolynomicalFunction) (render : ℚ → String)
    (stream cout : String) : String × String :=
  (stream, cout ++ p.printText render)

/-- Model of `AnalyticalIntegrator::print(ostream& stream)`: executes
`cout << "Analytical"`, ignoring `stream`. -/
def AnalyticalIntegrator.printStream (stream cout : String) : String × String :=
  (stream, cout ++ "Analytical")

/-- Model of `RiemannIntegrator::print(ostream& stream)`: executes
`cout << "Riemann Sum"`, ignoring `stream`. -/
def RiemannIntegrator.printStream (_R : RiemannIntegrator)
    (stream cout : String) : String × String :=
  (stream, cout ++ "Riemann Sum")

/-- Model of `printTable`: for each function index `i`, `functions[i]->print(cout)`
then for each integrator index `j`,
`cout << itors[j]->integrate(*functions[i], a, b) << ";"`, then
`cout << endl`.  The dynamically dispatched `integrate` of each stored
integrator is modelled as a function `PolynomicalFunction → ℚ → ℚ → ℚ`. -/
def printTable (render : ℚ → String) (functions : List PolynomicalFunction)
    (itors : List (PolynomicalFunction → ℚ → ℚ → ℚ)) (a b : ℚ) : String :=
  (List.range functions.length).foldl
    (fun out i =>
      ((List.range itors.length).foldl
        (fun out2 j =>
          out2 ++ render ((itors.getD j (fun _ _ _ => 0)) (functions.getD i ⟨[]⟩) a b)
            ++ ";")
        (out ++ (functions.getD i ⟨[]⟩).printText render))
      ++ "\n")
    ""

/-- Join a list of strings with a separator (used to state the claimed
textual format of `print`). -/
def joinSep (sep : String) : List String → String
  | [] => ""
  | [x] => x
  | x :: y :: xs => x ++ sep ++ joinSep sep (y :: xs)

/-- Concatenate a list of strings (used to state the claimed textual
format of `printTable`). -/
def strJoin : List String → String
  | [] => ""
  | x :: xs => x ++ strJoin xs

/-- The term list of the polynomial printout as the claim words it:
`c0` for index 0, `ci*x^i` (with an asterisk) for the later indices. -/
def claimedStarTerms (p : PolynomicalFunction) (render : ℚ → String) : List String :=
  (List.range p.coefficients.length).map
    (fun i =>
      if i = 0 then render (p.coefficients.getD i 0)
      else render (p.coefficients.getD i 0) ++ "*x^" ++ Nat.repr i)

/-- The claimed format of `print` taken literally from the spec sentence:
terms `c0`, `c1*x^1`, `c2*x^2`, … joined by `" + "`, ending in a
newline. -/
def claimedStarFormat (p : PolynomicalFunction) (render : ℚ → String) : String :=
  joinSep " + " (claimedStarTerms p render) ++ "\n"

/-- The term list `print` actually emits: `c0` for index 0 and `cix^i`
(no asterisk) for the later indices. -/
def sumTerms (p : PolynomicalFunction) (render : ℚ → String) : List String :=
  (List.range p.coefficients.length).map
    (fun i =>
      if i = 0 then render (p.coefficients.getD i 0)
      else render (p.coefficients.getD i 0) ++ "x^" ++ Nat.repr i)

/-- The amended format of `print`: terms `c0`, `c1x^1`, `c2x^2`, … joined
by `" + "`, ending in a newline. -/
def sumFormat (p : PolynomicalFunction) (render : ℚ → String) : String :=
  joinSep " + " (sumTerms p render) ++ "\n"

section Helpers

/-- A `+=` accumulation loop over `0..n-1` starting from `0` is the finite sum. -/
theorem foldl_add_eq_sum (g : ℕ → ℚ) (n : ℕ) :
    (List.range n).foldl (fun s i => s + g i) 0 = ∑ i in Finset.range n, g i := by
  induction n with
  | zero => simp
  | succ n ih =>
      rw [List.range_succ, List.foldl_append, Finset.sum_range_succ, ih]
      simp

/-- Writing `g 0, …, g (n-1)` into slots `1, …, n` of a buffer `L` (of length
at least `n + 1`) keeps slot `0`, fills the next `n` slots and keeps the rest. -/
theorem foldl_set_range (g : ℕ → ℚ) (n : ℕ) :
    ∀ L : List ℚ, n + 1 ≤ L.length →
      (List.range n).foldl (fun acc i => acc.set (i + 1) (g i)) L
        = L.take 1 ++ (List.range n).map g ++ L.drop (n + 1) := by
  induction n with
  | zero =>
      intro L _
      rw [List.range_zero, List.foldl_nil, List.map_nil, List.append_nil,
        List.take_append_drop]
  | succ n ih =>
      intro L hL
      rw [List.range_succ, List.foldl_append, List.foldl_cons, List.foldl_nil,
        ih L (by omega)]
      have h1 : (L.take 1 ++ (List.range n).map g).length = n + 1 := by
        rw [List.length_append, List.length_take, List.length_map, List.length_range]
        omega
      have h2 : n + 1 < L.length := by omega
      rw [List.set_append_right _ _ (by omega), h1]
      have h3 : (L.drop (n + 1)).set (n + 1 - (n + 1)) (g n) = g n :: L.drop (n + 2) := by
        rw [Nat.sub_self, List.drop_eq_getElem_cons h2, List.set_cons_zero]
      rw [h3]
      simp [List.range_succ]

/-- Internal form of the evaluation loop as a finite sum (shared helper). -/
theorem evaluate_sum (p : PolynomicalFunction) (x : ℚ) :
    p.evaluate x = ∑ i in Finset.range p.coefficients.length,
      p.coefficients.getD i 0 * x ^ i :=
  foldl_add_eq_sum _ _

/-- Internal form of the antiderivative coefficient vector (shared helper). -/
theorem antiderivative_coeff_list (p : PolynomicalFunction) :
    p.antiderivative.coefficients
      = 0 :: (List.range p.coefficients.length).map
          (fun i => p.coefficients.getD i 0 / ((i : ℚ) + 1)) := by
  unfold PolynomicalFunction.antiderivative
  rw [foldl_set_range _ _ _ (by simp)]
  simp

/-- Evaluating the antiderivative as a closed-form sum (shared helper). -/
theorem evaluate_antiderivative (p : PolynomicalFunction) (x : ℚ) :
    p.antiderivative.evaluate x
      = ∑ i in Finset.range p.coefficients.length,
          p.coefficients.getD i 0 / ((i : ℚ) + 1) * x ^ (i + 1) := by
  rw [evaluate_sum, antiderivative_coeff_list]
  simp only [List.length_cons, List.length_map, List.length_range]
  rw [Finset.sum_range_succ']
  have h0 : ∀ i : ℕ, i < p.coefficients.length →
      ((List.range p.coefficients.length).map
        (fun j => p.coefficients.getD j 0 / ((j : ℚ) + 1))).getD i 0
        = p.coefficients.getD i 0 / ((i : ℚ) + 1) := by
    intro i hi
    rw [List.getD_eq_getElem _ _ (by simpa using hi)]
    simp
  rw [Finset.sum_congr rfl fun i hi => by
    rw [List.getD_cons_succ, h0 i (Finset.mem_range.mp hi)]]
  simp

/-- Truncation toward zero fixes the integers (helper). -/
theorem truncInt_intCast (z : ℤ) : truncInt (z : ℚ) = z := by
  unfold truncInt
  split
  · exact Int.floor_intCast z
  · exact Int.ceil_intCast z

/-- Truncation toward zero of a quantity below `1` is nonpositive (helper). -/
theorem truncInt_nonpos (q : ℚ) (hq : q < 1) : truncInt q ≤ 0 := by
  unfold truncInt
  split
  · have h1 : ⌊q⌋ < 1 := Int.floor_lt.mpr (by exact_mod_cast hq)
    omega
  · next hq0 =>
      exact Int.ceil_le.mpr (by push_cast; linarith [not_le.mp hq0])

/-- Appending one more string to a separator-join (helper). -/
theorem joinSep_append_singleton (sep x : String) :
    ∀ l : List String, l ≠ [] →
      joinSep sep (l ++ [x]) = joinSep sep l ++ sep ++ x := by
  intro l
  induction l with
  | nil => intro h; exact absurd rfl h
  | cons a t ih =>
      intro _
      cases t with
      | nil => rfl
      | cons b t2 =>
          show a ++ sep ++ joinSep sep ((b :: t2) ++ [x])
            = a ++ sep ++ joinSep sep (b :: t2) ++ sep ++ x
          rw [ih (by simp)]
          simp [String.append_assoc]

/-- The `print` accumulation loop (first term bare, later terms preceded
by the separator) joins the term list with `" + "` (helper). -/
theorem foldl_sep_join (term : ℕ → String) (n : ℕ) :
    (List.range n).foldl
      (fun out i => if i = 0 then out ++ term i else out ++ " + " ++ term i) ""
      = joinSep " + " ((List.range n).map term) := by
  induction n with
  | zero => rfl
  | succ n ih =>
      rw [List.range_succ, List.foldl_append, List.foldl_cons, List.foldl_nil, ih,
        List.map_append]
      by_cases hn : n = 0
      · subst hn
        simp [joinSep]
      · have hl : List.map term (List.range n) ≠ [] := by
          intro hcon
          apply hn
          have hlen := congrArg List.length hcon
          simpa using hlen
        rw [if_neg hn, List.map_singleton, joinSep_append_singleton _ _ _ hl]

/-- An append-accumulation loop indexed over a list (through `getD`)
concatenates the rendered pieces after the initial buffer (helper). -/
theorem foldl_range_getD_strJoin {α : Type} (l : List α) (d : α) (t : α → String) :
    ∀ init : String,
      (List.range l.length).foldl (fun out i => out ++ t (l.getD i d)) init
        = init ++ strJoin (l.map t) := by
  induction l with
  | nil => intro init; simp [strJoin]
  | cons x xs ih =>
      intro init
      rw [List.length_cons, List.range_succ_eq_map, List.foldl_cons, List.foldl_map]
      simp only [List.getD_cons_succ, List.getD_cons_zero]
      rw [ih (init ++ t x)]
      simp [strJoin, String.append_assoc]

end Helpers

/-- Claim C1: `evaluate(x)` returns Σ cᵢ·xⁱ over the coefficient sequence
(the loop accumulating `coefficients[i] * pow(x, i)` left-to-right equals
the finite sum). -/
theorem evaluate_eq_sum (p : PolynomicalFunction) (x : ℚ) :
    p.evaluate x = ∑ i in Finset.range p.coefficients.length,
      p.coefficients.getD i 0 * x ^ i :=
  foldl_add_eq_sum _ _

/-- Claim C2: for every coefficient sequence `c0..cn` (including the empty
one) `antiderivative()` returns the coefficient sequence
`[0, c0/1, c1/2, …, cn/(n+1)]`: exactly one element longer than the
source, with constant term `0`. -/
theorem antiderivative_shifts_and_divides (p : PolynomicalFunction) :
    p.antiderivative.coefficients
        = 0 :: (List.range p.coefficients.length).map
            (fun i => p.coefficients.getD i 0 / ((i : ℚ) + 1))
      ∧ p.antiderivative.coefficients.length = p.coefficients.length + 1
      ∧ p.antiderivative.coefficients.getD 0 0 = 0 := by
  refine ⟨antiderivative_coeff_list p, ?_, ?_⟩ <;>
    rw [antiderivative_coeff_list p] <;> simp

/-- Claim C3: `RiemannIntegrator::integrate` computes `n` as `(b − a) / h`
truncated toward zero and returns the trapezoid sum
`Σ_{i<n} (x2 − x1)·(f(x1) + f(x2))/2` with `x1 = a + i·h`, `x2 = x1 + h`;
any final partial subinterval is dropped. -/
theorem riemann_integrate_eq_trapezoid_sum (R : RiemannIntegrator) (f : ℚ → ℚ)
    (a b : ℚ) :
    R.integrate f a b
      = ∑ i in Finset.range (truncInt ((b - a) / R.h)).toNat,
          ((a + (i : ℚ) * R.h + R.h) - (a + (i : ℚ) * R.h))
            * (f (a + (i : ℚ) * R.h) + f (a + (i : ℚ) * R.h + R.h)) / 2 := by
  simp only [RiemannIntegrator.integrate]
  rw [foldl_add_eq_sum]
  exact Finset.sum_congr rfl fun i _ => by ring

/-- Claim C4: `AnalyticalIntegrator::integrate` returns `F(b) − F(a)` for
`F = f.antiderivative()`, and for a polynomial with coefficients `c0..cn`
this is the closed-form definite integral
`Σ_i cᵢ/(i+1)·(b^(i+1) − a^(i+1))` (exact over `ℚ`). -/
theorem analytical_integrate_closed_form (f : PolynomicalFunction) (a b : ℚ) :
    AnalyticalIntegrator.integrate f a b
        = f.antiderivative.evaluate b - f.antiderivative.evaluate a
      ∧ AnalyticalIntegrator.integrate f a b
        = ∑ i in Finset.range f.coefficients.length,
            f.coefficients.getD i 0 / ((i : ℚ) + 1) * (b ^ (i + 1) - a ^ (i + 1)) := by
  refine ⟨rfl, ?_⟩
  show f.antiderivative.evaluate b - f.antiderivative.evaluate a = _
  rw [evaluate_antiderivative, evaluate_antiderivative, ← Finset.sum_sub_distrib]
  exact Finset.sum_congr rfl fun i _ => by ring

/-- Claim C5: with a positive step size, whenever `(b − a)/h` truncates to
`n ≤ 0` — in particular when `b < a`, and when `h` exceeds `b − a` —
`RiemannIntegrator::integrate` performs an empty accumulation and
returns `0`. -/
theorem riemann_empty_accumulation (R : RiemannIntegrator) (f : ℚ → ℚ)
    (a b : ℚ) (hh : 0 < R.h) :
    (truncInt ((b - a) / R.h) ≤ 0 → R.integrate f a b = 0)
      ∧ (b < a → R.integrate f a b = 0)
      ∧ (b - a < R.h → R.integrate f a b = 0) := by
  have h1 : truncInt ((b - a) / R.h) ≤ 0 → R.integrate f a b = 0 := by
    intro hq
    simp only [RiemannIntegrator.integrate]
    simp [Int.toNat_of_nonpos hq]
  refine ⟨h1, fun hba => h1 (truncInt_nonpos _ ?_), fun hba => h1 (truncInt_nonpos _ ?_)⟩
  · have hneg : (b - a) / R.h < 0 := div_neg_of_neg_of_pos (by linarith) hh
    linarith
  · exact (div_lt_one hh).mpr hba

/-- Witness for C5 at `h = 1`, `f = id`, `a = 0`, `b = 1/2`. -/
theorem riemann_empty_accumulation_witness :
    (0 : ℚ) < (1 : ℚ)
      ∧ RiemannIntegrator.integrate ⟨1⟩ (fun x => x) 0 (1/2) = 0 :=
  ⟨by norm_num,
    (riemann_empty_accumulation ⟨1⟩ (fun x => x) 0 (1/2) (by norm_num)).2.2
      (by norm_num)⟩

/-- Counterexample to C6: the constructor
`RiemannIntegrator(double h=0.001) : h(h) {}` accepts the non-positive
step size `h = −1` (it is stored unchanged, nothing is rejected), and the
resulting integrator runs `integrate` over `a = 5`, `b = 0` with a
positive iteration count, producing the negative result `−5`. -/
theorem riemann_constructor_accepts_nonpositive :
    ((-1 : ℚ) ≤ 0)
      ∧ (mkRiemannIntegrator (-1)).h = -1
      ∧ (mkRiemannIntegrator (-1)).integrate (fun _ => 1) 5 0 = -5 := by
  refine ⟨by norm_num, rfl, ?_⟩
  have e : ((0:ℚ) - 5) / (mkRiemannIntegrator (-1)).h = ((5:ℤ):ℚ) := by
    norm_num [mkRiemannIntegrator]
  simp only [RiemannIntegrator.integrate, e, truncInt_intCast]
  simp [List.range_succ, mkRiemannIntegrator]
  norm_num

/-- Claim C6 (amended): the `RiemannIntegrator` constructor performs no
validation: every step size `h`, including non-positive ones, is accepted
and stored unchanged, and with `h = −1` the integrator silently returns
`0` over `[0, 5]` (the iteration count truncates to a negative value,
yielding an empty accumulation) instead of being rejected. -/
theorem riemann_constructor_unvalidated :
    (∀ h : ℚ, (mkRiemannIntegrator h).h = h)
      ∧ (mkRiemannIntegrator (-1)).integrate (fun _ => 1) 0 5 = 0 := by
  refine ⟨fun h => rfl, ?_⟩
  have e : ((5:ℚ) - 0) / (mkRiemannIntegrator (-1)).h = (((-5):ℤ):ℚ) := by
    norm_num [mkRiemannIntegrator]
  simp only [RiemannIntegrator.integrate, e, truncInt_intCast]
  simp

/-- Counterexample to C7: `AnalyticalIntegrator::integrate` on the
constant polynomial `−1` with `b = 0 ≤ a = 1` returns `1`, which is
positive — the result is the sign flip of the integral over `[b, a]`, not
a non-positive value. -/
theorem analytical_negative_integrand_positive_result :
    ((0 : ℚ) ≤ 1)
      ∧ AnalyticalIntegrator.integrate ⟨[-1]⟩ 1 0 = 1
      ∧ ¬(AnalyticalIntegrator.integrate ⟨[-1]⟩ 1 0 ≤ 0) := by
  have e : AnalyticalIntegrator.integrate ⟨[-1]⟩ 1 0 = 1 := by
    simp [AnalyticalIntegrator.integrate, PolynomicalFunction.antiderivative,
      PolynomicalFunction.evaluate, List.range_succ]
  exact ⟨by norm_num, e, by rw [e]; norm_num⟩

/-- Claim C7 (amended): for `b ≤ a`, `AnalyticalIntegrator::integrate`
returns the mathematically consistent sign flip of the integral over
`[b, a]` — `integrate(f, a, b) = −integrate(f, b, a)`, and in particular
`0` when the bounds coincide — but not necessarily a non-positive
value. -/
theorem analytical_integrate_sign_flip (f : PolynomicalFunction) (a b : ℚ)
    (_hba : b ≤ a) :
    AnalyticalIntegrator.integrate f a b = -(AnalyticalIntegrator.integrate f b a)
      ∧ AnalyticalIntegrator.integrate f a a = 0 := by
  unfold AnalyticalIntegrator.integrate
  constructor <;> ring

/-- Witness for the amended C7 at `f = [1]`, `a = 1`, `b = 0`. -/
theorem analytical_integrate_sign_flip_witness :
    (0 : ℚ) ≤ (1 : ℚ)
      ∧ (AnalyticalIntegrator.integrate ⟨[1]⟩ 1 0
            = -(AnalyticalIntegrator.integrate ⟨[1]⟩ 0 1)
          ∧ AnalyticalIntegrator.integrate ⟨[1]⟩ 1 1 = 0) :=
  ⟨by norm_num, analytical_integrate_sign_flip ⟨[1]⟩ 1 0 (by norm_num)⟩

/-- Counterexample to C8: on coefficients `[1, 2]`, with every `double`
rendered as the letter `c`, `print` emits `"c + cx^1\n"` — there is no
`*` between the coefficient and the power of `x`, so the output differs
from the claimed `c0 + c1*x^1 + …` shape. -/
theorem print_asterisk_counterexample :
    PolynomicalFunction.printText ⟨[1, 2]⟩ (fun _ => "c") = "c + cx^1\n"
      ∧ PolynomicalFunction.printText ⟨[1, 2]⟩ (fun _ => "c")
          ≠ claimedStarFormat ⟨[1, 2]⟩ (fun _ => "c") := by
  constructor
  · rfl
  · decide

/-- Claim C8 (amended): `print` emits the coefficients as the sum
`c0 + c1x^1 + c2x^2 + …` (no asterisk between coefficient and power):
the index-0 term carries no `x^0` suffix, terms are separated by `" + "`,
every term is printed regardless of sign or zero value, and the output
ends with a newline. -/
theorem print_emits_sum_terms (p : PolynomicalFunction) (render : ℚ → String) :
    p.printText render = sumFormat p render := by
  unfold PolynomicalFunction.printText sumFormat sumTerms
  have hb : (fun (out : String) (i : ℕ) =>
      if i = 0 then out ++ render (p.coefficients.getD i 0)
      else out ++ " + " ++ render (p.coefficients.getD i 0) ++ "x^" ++ Nat.repr i)
      = (fun (out : String) (i : ℕ) =>
        if i = 0
        then out ++ (if i = 0 then render (p.coefficients.getD i 0)
          else render (p.coefficients.getD i 0) ++ "x^" ++ Nat.repr i)
        else out ++ " + " ++ (if i = 0 then render (p.coefficients.getD i 0)
          else render (p.coefficients.getD i 0) ++ "x^" ++ Nat.repr i)) := by
    funext out i
    by_cases hi : i = 0
    · simp [hi]
    · simp [hi, String.append_assoc]
  rw [hb, foldl_sep_join]

/-- Claim C9: the table printer emits, for each function in sequence
order, the textual form of the function, then for each integrator in sequence
order the rendered `integrate(f, a, b)` immediately followed by `;`, then
a newline; the produced output is exactly this concatenation and nothing
else. -/
theorem printTable_rows (render : ℚ → String) (functions : List PolynomicalFunction)
    (itors : List (PolynomicalFunction → ℚ → ℚ → ℚ)) (a b : ℚ) :
    printTable render functions itors a b
      = strJoin (functions.map (fun f =>
          f.printText render
            ++ strJoin (itors.map (fun I => render (I f a b) ++ ";"))
            ++ "\n")) := by
  unfold printTable
  have hinner : ∀ (start : String) (f : PolynomicalFunction),
      (List.range itors.length).foldl
        (fun out2 j =>
          out2 ++ render ((itors.getD j (fun _ _ _ => 0)) f a b) ++ ";") start
        = start ++ strJoin (itors.map (fun I => render (I f a b) ++ ";")) := by
    intro start f
    have hb : (fun (out2 : String) (j : ℕ) =>
        out2 ++ render ((itors.getD j (fun _ _ _ => 0)) f a b) ++ ";")
        = (fun (out2 : String) (j : ℕ) =>
          out2 ++ (render ((itors.getD j (fun _ _ _ => 0)) f a b) ++ ";")) := by
      funext out2 j
      rw [String.append_assoc]
    rw [hb]
    exact foldl_range_getD_strJoin itors _ (fun I => render (I f a b) ++ ";") start
  have hbody : (fun (out : String) (i : ℕ) =>
      ((List.range itors.length).foldl
        (fun out2 j =>
          out2 ++ render ((itors.getD j (fun _ _ _ => 0)) (functions.getD i ⟨[]⟩) a b)
            ++ ";")
        (out ++ (functions.getD i ⟨[]⟩).printText render))
      ++ "\n")
      = (fun (out : String) (i : ℕ) =>
        out ++ ((functions.getD i ⟨[]⟩).printText render
          ++ strJoin (itors.map
              (fun I => render (I (functions.getD i ⟨[]⟩) a b) ++ ";"))
          ++ "\n")) := by
    funext out i
    rw [hinner]
    simp [String.append_assoc]
  rw [hbody]
  have hmain := foldl_range_getD_strJoin functions (⟨[]⟩ : PolynomicalFunction)
    (fun f => f.printText render
      ++ strJoin (itors.map (fun I => render (I f a b) ++ ";")) ++ "\n") ""
  rw [String.empty_append] at hmain
  exact hmain

/-- Claim C10: every `print` method (`PolynomicalFunction`,
`AnalyticalIntegrator`, `RiemannIntegrator`) ignores its stream argument
and writes to `cout` instead: the passed stream buffer is returned
untouched, and the text appended to `cout` is the same for any two stream
arguments. -/
theorem print_ignores_stream (render : ℚ → String) (p : PolynomicalFunction)
    (R : RiemannIntegrator) (s₁ s₂ out : String) :
    ((p.printStream render s₁ out).1 = s₁
        ∧ (p.printStream render s₁ out).2 = (p.printStream render s₂ out).2)
      ∧ ((AnalyticalIntegrator.printStream s₁ out).1 = s₁
        ∧ (AnalyticalIntegrator.printStream s₁ out).2
            = (AnalyticalIntegrator.printStream s₂ out).2)
      ∧ ((R.printStream s₁ out).1 = s₁
        ∧ (R.printStream s₁ out).2 = (R.printStream s₂ out).2) :=
  ⟨⟨rfl, rfl⟩, ⟨rfl, rfl⟩, ⟨rfl, rfl⟩⟩
